import Mathlib

/-!
Shallow embedding of `requestbin/storage/redis.py` (class `RedisStorage`).

The backing Redis store is modelled as an association list from key strings
to entries; an entry carries a value (a string blob or a list of ids) and an
optional absolute expiration timestamp.  All reads take the current time `t`
and treat an entry whose expiration is `≤ t` as absent, mirroring Redis's
lazy expiration.  Machine-level details (msgpack byte strings) are abstracted
into a symbolic `Blob` type; serialization round-trips are modelled from the
spec since `models.py` is not part of the given sources.

The source targets Python 2 (`map` returns a list, so `reversed(map(...))`
is list reversal); timestamps and TTLs are natural numbers, `int(...)` is
the identity on them.
-/

set_option autoImplicit false

namespace RequestBin

/-- Modelled from the spec: the Request model (`models.py`, not in the given
sources) — one captured event with a layer-assigned id and an opaque payload. -/
structure Request where
  id : String
  payload : String
deriving DecidableEq

/-- Modelled from the spec: the Bin model (`models.py`, not in the given
sources) — name, creation timestamp, privacy flag, and a transient `requests`
field that is empty on creation and populated only on read.  The Python field
`private` is named `priv` here (`private` is reserved in Lean). -/
structure Bin where
  name : String
  created : Nat
  priv : Bool
  requests : List Request
deriving DecidableEq

/-- A stored byte string, symbolically: a serialized Bin (without requests),
a serialized Request, a stringified integer (the counter), or unparseable
junk. -/
inductive Blob where
  | binBlob (name : String) (created : Nat) (priv : Bool)
  | reqBlob (r : Request)
  | intBlob (n : Nat)
  | corrupt
deriving DecidableEq

/-- A Redis value: a string or a list. -/
inductive Val where
  | str (b : Blob)
  | list (l : List String)
deriving DecidableEq

/-- A stored entry: value plus optional absolute expiration timestamp
(`none` = the key never expires). -/
structure Entry where
  val : Val
  expireAt : Option Nat
deriving DecidableEq

/-- The Redis keyspace: an association list, first binding wins. -/
abbrev Store := List (String × Entry)

/-- Raw association-list lookup (ignores expiration). -/
def findE : Store → String → Option Entry
  | [], _ => none
  | (k, e) :: rest, k2 => if k2 = k then some e else findE rest k2

/-- Bind `k` to `e`, removing any previous binding. -/
def setKey (σ : Store) (k : String) (e : Entry) : Store :=
  (k, e) :: σ.filter (fun p => p.1 != k)

/-- Redis DEL. -/
def delKey (σ : Store) (k : String) : Store :=
  σ.filter (fun p => p.1 != k)

/-- An entry is live at time `t` if it has no expiration or expires later. -/
def liveEntry (e : Entry) (t : Nat) : Bool :=
  match e.expireAt with
  | none => true
  | some x => t < x

/-- Lookup that hides expired entries, as Redis reads do. -/
def getEntry (σ : Store) (t : Nat) (k : String) : Option Entry :=
  match findE σ k with
  | some e => if liveEntry e t then some e else none
  | none => none

/-- Redis EXISTS at time `t`. -/
def keyLive (σ : Store) (t : Nat) (k : String) : Bool :=
  (getEntry σ t k).isSome

/-- Redis GET: the blob stored under `k`, if `k` holds a live string. -/
def getStr (σ : Store) (t : Nat) (k : String) : Option Blob :=
  match getEntry σ t k with
  | some ⟨Val.str b, _⟩ => some b
  | _ => none

/-- Redis LLEN/LRANGE view: the list stored under `k` (absent key = `[]`). -/
def getList (σ : Store) (t : Nat) (k : String) : List String :=
  match getEntry σ t k with
  | some ⟨Val.list l, _⟩ => l
  | _ => []

/-- Redis SET: store a string blob, clearing any previous TTL. -/
def setStr (σ : Store) (k : String) (b : Blob) : Store :=
  setKey σ k ⟨Val.str b, none⟩

/-- Redis EXPIREAT: set the expiration of `k` to absolute time `ts`;
a no-op when `k` does not exist (or has already expired). -/
def expireatKey (σ : Store) (t : Nat) (k : String) (ts : Nat) : Store :=
  match getEntry σ t k with
  | some e => setKey σ k ⟨e.val, some ts⟩
  | none => σ

/-- Redis RPUSH: append to the list under `k`, creating it (with no TTL)
when absent.  A live non-list value is a WRONGTYPE error in Redis; it is
left unmodelled (identity) and excluded by hypothesis in every theorem. -/
def rpush (σ : Store) (t : Nat) (k x : String) : Store :=
  match getEntry σ t k with
  | some e =>
    match e.val with
    | Val.list l => setKey σ k ⟨Val.list (l ++ [x]), e.expireAt⟩
    | Val.str _ => σ
  | none => setKey σ k ⟨Val.list [x], none⟩

/-- Redis SETNX with an integer payload (used for the counter init). -/
def setnxInt (σ : Store) (t : Nat) (k : String) (n : Nat) : Store :=
  if keyLive σ t k then σ else setKey σ k ⟨Val.str (Blob.intBlob n), none⟩

/-- Redis INCR: increment the integer under `k`, initializing an absent key
to 1; keeps the key's TTL.  A non-integer value is a Redis error, left
unmodelled (identity) and excluded by hypothesis in every theorem. -/
def incrKey (σ : Store) (t : Nat) (k : String) : Store :=
  match getEntry σ t k with
  | some e =>
    match e.val with
    | Val.str (Blob.intBlob n) => setKey σ k ⟨Val.str (Blob.intBlob (n + 1)), e.expireAt⟩
    | _ => σ
  | none => setKey σ k ⟨Val.str (Blob.intBlob 1), none⟩

/-- `RedisStorage._key_bin`: `'{}:bins:{}:details'.format(self.prefix, name)`. -/
def key_bin (pfx name : String) : String :=
  pfx ++ ":bins:" ++ name ++ ":details"

/-- `RedisStorage._key_request_list`. -/
def key_request_list (pfx name : String) : String :=
  pfx ++ ":bins:" ++ name ++ ":requests"

/-- `RedisStorage._key_request`. -/
def key_request (pfx name rid : String) : String :=
  pfx ++ ":bins:" ++ name ++ ":requests:" ++ rid

/-- `RedisStorage._request_count_key`. -/
def request_count_key (pfx : String) : String :=
  pfx ++ ":requests"

/-- Deserialization failure (Python `TypeError` raised by msgpack on bad or
missing data). -/
inductive LoadErr where
  | typeError
deriving DecidableEq

/-- Errors surfaced by the storage layer: `KeyError("Bin not found")`
(the spec's `NotFound`) and `RuntimeError("Failed to create database
entity")` (the spec's `IdAllocationExhausted`). -/
inductive StorageErr where
  | notFound
  | idAllocationExhausted
deriving DecidableEq

/-- Modelled from the spec: `Bin.dump` (`models.py`, not in the given
sources) serializes a Bin without its requests. -/
def Bin.dump (b : Bin) : Blob :=
  Blob.binBlob b.name b.created b.priv

/-- Modelled from the spec: `Bin.load` (`models.py`, not in the given
sources) — deserializing a well-formed details blob yields the Bin with an
empty `requests` field; a missing value (Python `None`) or any other data
raises `TypeError`. -/
def Bin.load : Option Blob → Except LoadErr Bin
  | some (Blob.binBlob name created priv) => Except.ok ⟨name, created, priv, []⟩
  | _ => Except.error LoadErr.typeError

/-- Modelled from the spec: `Request.dump` (`models.py`, not in the given
sources). -/
def Request.dump (r : Request) : Blob :=
  Blob.reqBlob r

/-- Modelled from the spec: `Request.load` (`models.py`, not in the given
sources) — a missing value (Python `None`, as produced by MGET for an absent
key) or any other data raises `TypeError`. -/
def Request.load : Option Blob → Except LoadErr Request
  | some (Blob.reqBlob r) => Except.ok r
  | _ => Except.error LoadErr.typeError

/-- `map(Request.load, serialized_requests)` in Python 2: eager, raising on
the first failing entry. -/
def loadRequests : List (Option Blob) → Except LoadErr (List Request)
  | [] => Except.ok []
  | b :: rest =>
    match Request.load b with
    | Except.error e => Except.error e
    | Except.ok r =>
      match loadRequests rest with
      | Except.error e => Except.error e
      | Except.ok rs => Except.ok (r :: rs)

/-- `RedisStorage.create_bin`.  The Bin constructor (not in the given
sources) generates a fresh name and takes the current time as `created`;
both are supplied here as parameters `name` and `t`. -/
def create_bin (pfx : String) (bin_ttl : Nat) (σ : Store) (t : Nat)
    (name : String) (priv : Bool) : Store × Bin :=
  let bin : Bin := ⟨name, t, priv, []⟩
  let key := key_bin pfx name
  let σ1 := setStr σ key (Bin.dump bin)
  let σ2 := expireatKey σ1 t key (bin.created + bin_ttl)
  (σ2, bin)

/-- Result of `create_request`: the store after the call, the value returned
to the caller (`Except.ok none` models Python's implicit `return None` on
success), and the number of SETNX attempts performed. -/
structure CreateResult where
  store : Store
  result : Except StorageErr (Option Request)
  attempts : Nat

/-- The `for i in range(50)` SETNX retry loop of `create_request`.  The key
is the one computed before the loop and is never recomputed; on failure the
id is regenerated from the generator `g` at increasing indices.  Returns the
store, the successfully written Request (if any), and the number of SETNX
calls made. -/
def tryWrite (t : Nat) (key : String) (g : Nat → String) :
    Store → Request → Nat → Nat → Store × Option Request × Nat
  | σ, _, 0, _ => (σ, none, 0)
  | σ, cur, n + 1, k =>
    if keyLive σ t key then
      let r := tryWrite t key g σ { cur with id := g k } n (k + 1)
      (r.1, r.2.1, r.2.2 + 1)
    else
      (setStr σ key (Request.dump cur), some cur, 1)

/-- `RedisStorage.create_request`.  The Request constructor assigns the
first generated id `g 0`; `tinyid(6)` regenerations inside the loop take
`g 1`, `g 2`, ….  Note `key_request` is computed once, from the initial id,
exactly as in the source. -/
def create_request (pfx : String) (bin_ttl : Nat) (g : Nat → String)
    (σ : Store) (t : Nat) (bin : Bin) (payload : String) : CreateResult :=
  let req : Request := ⟨g 0, payload⟩
  let key_req := key_request pfx bin.name req.id
  match tryWrite t key_req g σ req 50 1 with
  | (σ1, none, n) => ⟨σ1, Except.error StorageErr.idAllocationExhausted, n⟩
  | (σ1, some r, n) =>
    let σ2 := expireatKey σ1 t key_req (bin.created + bin_ttl + 2)
    let key_list := key_request_list pfx bin.name
    let σ3 := rpush σ2 t key_list r.id
    let σ4 := expireatKey σ3 t key_list (bin.created + bin_ttl + 1)
    let ck := request_count_key pfx
    let σ5 := setnxInt σ4 t ck 0
    let σ6 := incrKey σ5 t ck
    ⟨σ6, Except.ok none, n⟩

/-- Redis KEYS glob matching, restricted to the only pattern shape the
source uses (`count_bins` passes a literal followed by a single trailing
`*`): the key matches iff the literal part is a prefix of it. -/
def patMatch (pat key : String) : Bool :=
  List.isPrefixOf pat.data.dropLast key.data

/-- `RedisStorage.count_bins`: `len(self.redis.keys("{}_*".format(self.prefix)))`. -/
def count_bins (pfx : String) (σ : Store) (t : Nat) : Nat :=
  (((σ.filter (fun p => liveEntry p.2 t)).map (fun p => p.1)).filter
    (patMatch (pfx ++ "_*"))).length

/-- `RedisStorage.count_requests`: `int(self.redis.get(key) or 0)`.  A live
non-integer value would make Python's `int()` raise; it is excluded by
hypothesis wherever it matters. -/
def count_requests (pfx : String) (σ : Store) (t : Nat) : Nat :=
  match getStr σ t (request_count_key pfx) with
  | some (Blob.intBlob n) => n
  | _ => 0

/-- Redis LRANGE on an already-fetched list value. -/
def lrange (l : List String) (a b : Nat) : List String :=
  (l.drop a).take (b + 1 - a)

/-- `RedisStorage.lookup_bin`.  The Python `try` block spans from
`Bin.load` through request deserialization; a `TypeError` anywhere in it
deletes the details key and raises `KeyError("Bin not found")`. -/
def lookup_bin (pfx : String) (σ : Store) (t : Nat) (name : String) :
    Store × Except StorageErr Bin :=
  let key_b := key_bin pfx name
  match Bin.load (getStr σ t key_b) with
  | Except.error _ => (delKey σ key_b, Except.error StorageErr.notFound)
  | Except.ok b =>
    let key_list := key_request_list pfx name
    let request_count := (getList σ t key_list).length
    if request_count > 0 then
      let request_ids := lrange (getList σ t key_list) 0 (request_count - 1)
      let serialized := request_ids.map (fun i => getStr σ t (key_request pfx name i))
      match loadRequests serialized with
      | Except.error _ => (delKey σ key_b, Except.error StorageErr.notFound)
      | Except.ok reqs => (σ, Except.ok { b with requests := reqs.reverse })
    else
      (σ, Except.ok b)


/-- `Except.isOk` specialized check for driver bookkeeping. -/
def isOkE {ε α : Type} : Except ε α → Bool
  | Except.ok _ => true
  | Except.error _ => false

/-- The list key is well-typed at `t`: absent/expired, or holding a list. -/
def listTypedB (σ : Store) (t : Nat) (k : String) : Bool :=
  match getEntry σ t k with
  | some ⟨Val.list _, _⟩ => true
  | some _ => false
  | none => true

/-- The counter key is well-typed at `t`: absent/expired, or an integer. -/
def counterTypedB (σ : Store) (t : Nat) (k : String) : Bool :=
  match getEntry σ t k with
  | some ⟨Val.str (Blob.intBlob _), _⟩ => true
  | some _ => false
  | none => true

theorem findE_filter_ne {σ : Store} {k k2 : String} (h : k2 ≠ k) :
    findE (σ.filter (fun p => p.1 != k)) k2 = findE σ k2 := by
  induction σ with
  | nil => rfl
  | cons p rest ih =>
    obtain ⟨a, b⟩ := p
    by_cases hp : a = k
    · have hb : (a != k) = false := by simp [hp]
      have hk2 : k2 ≠ a := fun hh => h (hh.trans hp)
      simp [List.filter_cons, hb, findE, hk2, ih]
    · have hb : (a != k) = true := by simp [hp]
      simp [List.filter_cons, hb, findE, ih]

theorem findE_setKey_same (σ : Store) (k : String) (e : Entry) :
    findE (setKey σ k e) k = some e := by
  simp [setKey, findE]

theorem findE_setKey_ne {σ : Store} {k k2 : String} (e : Entry) (h : k2 ≠ k) :
    findE (setKey σ k e) k2 = findE σ k2 := by
  simp [setKey, findE, h, findE_filter_ne h]

theorem findE_delKey_same (σ : Store) (k : String) :
    findE (delKey σ k) k = none := by
  induction σ with
  | nil => rfl
  | cons p rest ih =>
    obtain ⟨a, b⟩ := p
    by_cases hp : a = k
    · have hb : (a != k) = false := by simp [hp]
      simpa [delKey, List.filter_cons, hb] using ih
    · have hb : (a != k) = true := by simp [hp]
      have hk : k ≠ a := fun hh => hp hh.symm
      simpa [delKey, List.filter_cons, hb, findE, hk] using ih

theorem findE_delKey_ne {σ : Store} {k k2 : String} (h : k2 ≠ k) :
    findE (delKey σ k) k2 = findE σ k2 := findE_filter_ne h

theorem getEntry_setKey_same (σ : Store) (t : Nat) (k : String) (e : Entry) :
    getEntry (setKey σ k e) t k = if liveEntry e t then some e else none := by
  simp [getEntry, findE_setKey_same]

theorem getEntry_setKey_ne {σ : Store} {t : Nat} {k k2 : String} (e : Entry) (h : k2 ≠ k) :
    getEntry (setKey σ k e) t k2 = getEntry σ t k2 := by
  simp [getEntry, findE_setKey_ne e h]

theorem findE_expireat_ne {σ : Store} {t : Nat} {k k2 : String} (ts : Nat) (h : k2 ≠ k) :
    findE (expireatKey σ t k ts) k2 = findE σ k2 := by
  unfold expireatKey
  cases getEntry σ t k with
  | none => rfl
  | some e => exact findE_setKey_ne _ h

theorem findE_rpush_ne {σ : Store} {t : Nat} {k k2 x : String} (h : k2 ≠ k) :
    findE (rpush σ t k x) k2 = findE σ k2 := by
  unfold rpush
  cases getEntry σ t k with
  | none => exact findE_setKey_ne _ h
  | some e =>
    obtain ⟨v, ex⟩ := e
    cases v with
    | list l => exact findE_setKey_ne _ h
    | str b => rfl

theorem findE_setnxInt_ne {σ : Store} {t : Nat} {k k2 : String} (n : Nat) (h : k2 ≠ k) :
    findE (setnxInt σ t k n) k2 = findE σ k2 := by
  unfold setnxInt
  by_cases hl : keyLive σ t k
  · simp [hl]
  · simp [hl, findE_setKey_ne _ h]

theorem findE_incr_ne {σ : Store} {t : Nat} {k k2 : String} (h : k2 ≠ k) :
    findE (incrKey σ t k) k2 = findE σ k2 := by
  unfold incrKey
  cases getEntry σ t k with
  | none => exact findE_setKey_ne _ h
  | some e =>
    obtain ⟨v, ex⟩ := e
    cases v with
    | list l => rfl
    | str b => cases b <;> first | rfl | exact findE_setKey_ne _ h

theorem getEntry_expireat_ne {σ : Store} {t t2 : Nat} {k k2 : String} (ts : Nat) (h : k2 ≠ k) :
    getEntry (expireatKey σ t k ts) t2 k2 = getEntry σ t2 k2 := by
  simp [getEntry, findE_expireat_ne ts h]

theorem getEntry_rpush_ne {σ : Store} {t t2 : Nat} {k k2 x : String} (h : k2 ≠ k) :
    getEntry (rpush σ t k x) t2 k2 = getEntry σ t2 k2 := by
  simp [getEntry, findE_rpush_ne h]

theorem getEntry_setnxInt_ne {σ : Store} {t t2 : Nat} {k k2 : String} (n : Nat) (h : k2 ≠ k) :
    getEntry (setnxInt σ t k n) t2 k2 = getEntry σ t2 k2 := by
  simp [getEntry, findE_setnxInt_ne n h]

theorem getEntry_incr_ne {σ : Store} {t t2 : Nat} {k k2 : String} (h : k2 ≠ k) :
    getEntry (incrKey σ t k) t2 k2 = getEntry σ t2 k2 := by
  simp [getEntry, findE_incr_ne h]

theorem key_bin_len (pfx name : String) :
    (key_bin pfx name).length = pfx.length + name.length + 14 := by
  have h1 : (":bins:" : String).length = 6 := by decide
  have h2 : (":details" : String).length = 8 := by decide
  simp [key_bin, String.length_append, h1, h2]; omega

theorem key_request_list_len (pfx name : String) :
    (key_request_list pfx name).length = pfx.length + name.length + 15 := by
  have h1 : (":bins:" : String).length = 6 := by decide
  have h2 : (":requests" : String).length = 9 := by decide
  simp [key_request_list, String.length_append, h1, h2]; omega

theorem key_request_len (pfx name rid : String) :
    (key_request pfx name rid).length = pfx.length + name.length + rid.length + 16 := by
  have h1 : (":bins:" : String).length = 6 := by decide
  have h2 : (":requests:" : String).length = 10 := by decide
  simp [key_request, String.length_append, h1, h2]; omega

theorem request_count_key_len (pfx : String) :
    (request_count_key pfx).length = pfx.length + 9 := by
  have h2 : (":requests" : String).length = 9 := by decide
  simp [request_count_key, String.length_append, h2]

theorem key_bin_ne_list (pfx name : String) :
    key_bin pfx name ≠ key_request_list pfx name := by
  intro h
  have := congrArg String.length h
  rw [key_bin_len, key_request_list_len] at this; omega

theorem key_bin_ne_request (pfx name rid : String) :
    key_bin pfx name ≠ key_request pfx name rid := by
  intro h
  have := congrArg String.length h
  rw [key_bin_len, key_request_len] at this; omega

theorem key_bin_ne_counter (pfx name : String) :
    key_bin pfx name ≠ request_count_key pfx := by
  intro h
  have := congrArg String.length h
  rw [key_bin_len, request_count_key_len] at this; omega

theorem key_list_ne_request (pfx name rid : String) :
    key_request_list pfx name ≠ key_request pfx name rid := by
  intro h
  have := congrArg String.length h
  rw [key_request_list_len, key_request_len] at this; omega

theorem key_list_ne_counter (pfx name : String) :
    key_request_list pfx name ≠ request_count_key pfx := by
  intro h
  have := congrArg String.length h
  rw [key_request_list_len, request_count_key_len] at this; omega

theorem key_request_ne_counter (pfx name rid : String) :
    key_request pfx name rid ≠ request_count_key pfx := by
  intro h
  have := congrArg String.length h
  rw [key_request_len, request_count_key_len] at this; omega

theorem key_request_inj {pfx name rid1 rid2 : String}
    (h : key_request pfx name rid1 = key_request pfx name rid2) : rid1 = rid2 := by
  apply String.ext
  have h2 := congrArg String.data h
  simp only [key_request, String.data_append, List.append_assoc] at h2
  exact List.append_cancel_left (List.append_cancel_left (List.append_cancel_left
    (List.append_cancel_left h2)))

theorem tryWrite_occupied {σ : Store} {t : Nat} {key : String} (g : Nat → String)
    (h : keyLive σ t key = true) :
    ∀ (n k : Nat) (cur : Request), tryWrite t key g σ cur n k = (σ, none, n) := by
  intro n
  induction n with
  | zero => intro k cur; rfl
  | succ m ih => intro k cur; simp [tryWrite, h, ih]

theorem tryWrite_free {σ : Store} {t : Nat} {key : String} (g : Nat → String)
    (h : keyLive σ t key = false) (n k : Nat) (cur : Request) :
    tryWrite t key g σ cur (n + 1) k =
      (setStr σ key (Request.dump cur), some cur, 1) := by
  simp [tryWrite, h]


theorem getEntry_live {σ : Store} {t : Nat} {k : String} {e : Entry}
    (h : getEntry σ t k = some e) : liveEntry e t = true := by
  unfold getEntry at h
  cases hf : findE σ k with
  | none => simp [hf] at h
  | some e2 =>
    simp only [hf] at h
    by_cases hl : liveEntry e2 t
    · obtain rfl : e2 = e := by simpa [hl] using h
      exact hl
    · simp [hl] at h

theorem getEntry_of_findE {σ : Store} {t : Nat} {k : String} {e : Entry}
    (hf : findE σ k = some e) (hl : liveEntry e t = true) :
    getEntry σ t k = some e := by
  simp [getEntry, hf, hl]

/-- Unfolding of `create_request` when the initial SETNX fails: the key it
retries is never recomputed, so all 50 attempts fail, the store is left
untouched and the call raises. -/
theorem create_request_occupied (pfx : String) (ttl : Nat) (g : Nat → String)
    (σ : Store) (t : Nat) (bin : Bin) (payload : String)
    (hocc : keyLive σ t (key_request pfx bin.name (g 0)) = true) :
    create_request pfx ttl g σ t bin payload =
      ⟨σ, Except.error StorageErr.idAllocationExhausted, 50⟩ := by
  have h1 := tryWrite_occupied g hocc 50 1 ⟨g 0, payload⟩
  simp [create_request, h1]

/-- Unfolding of `create_request` when the request key is free: the first
SETNX succeeds and the remaining side effects run in source order. -/
theorem create_request_free (pfx : String) (ttl : Nat) (g : Nat → String)
    (σ : Store) (t : Nat) (bin : Bin) (payload : String)
    (hfree : keyLive σ t (key_request pfx bin.name (g 0)) = false) :
    create_request pfx ttl g σ t bin payload =
      ⟨incrKey
        (setnxInt
          (expireatKey
            (rpush
              (expireatKey
                (setStr σ (key_request pfx bin.name (g 0)) (Blob.reqBlob ⟨g 0, payload⟩))
                t (key_request pfx bin.name (g 0)) (bin.created + ttl + 2))
              t (key_request_list pfx bin.name) (g 0))
            t (key_request_list pfx bin.name) (bin.created + ttl + 1))
          t (request_count_key pfx) 0)
        t (request_count_key pfx),
      Except.ok none, 1⟩ := by
  have h1 := tryWrite_free g hfree 49 1 ⟨g 0, payload⟩
  norm_num at h1
  simp [create_request, h1, Request.dump]


/-- `create_request` succeeds iff the key derived from the first generated id
is free; with the key fixed before the loop, a first-attempt collision can
never be repaired by regeneration. -/
theorem create_request_ok_iff (pfx : String) (ttl : Nat) (g : Nat → String)
    (σ : Store) (t : Nat) (bin : Bin) (payload : String) :
    isOkE (create_request pfx ttl g σ t bin payload).result = true ↔
      keyLive σ t (key_request pfx bin.name (g 0)) = false := by
  by_cases h : keyLive σ t (key_request pfx bin.name (g 0))
  · rw [create_request_occupied pfx ttl g σ t bin payload h]
    simp [isOkE, h]
  · rw [create_request_free pfx ttl g σ t bin payload (by simpa using h)]
    simp [isOkE, h]

theorem create_request_store_request (pfx : String) (ttl : Nat) (g : Nat → String)
    (σ : Store) (t : Nat) (bin : Bin) (payload : String)
    (hfree : keyLive σ t (key_request pfx bin.name (g 0)) = false) :
    findE (create_request pfx ttl g σ t bin payload).store
        (key_request pfx bin.name (g 0)) =
      some ⟨Val.str (Blob.reqBlob ⟨g 0, payload⟩), some (bin.created + ttl + 2)⟩ := by
  rw [create_request_free pfx ttl g σ t bin payload hfree]
  have hRL : key_request pfx bin.name (g 0) ≠ key_request_list pfx bin.name :=
    (key_list_ne_request pfx bin.name (g 0)).symm
  have hRC : key_request pfx bin.name (g 0) ≠ request_count_key pfx :=
    key_request_ne_counter pfx bin.name (g 0)
  rw [findE_incr_ne hRC, findE_setnxInt_ne 0 hRC, findE_expireat_ne _ hRL,
    findE_rpush_ne hRL]
  have h2 : getEntry (setStr σ (key_request pfx bin.name (g 0))
      (Blob.reqBlob ⟨g 0, payload⟩)) t (key_request pfx bin.name (g 0)) =
      some ⟨Val.str (Blob.reqBlob ⟨g 0, payload⟩), none⟩ := by
    simp [setStr, getEntry_setKey_same, liveEntry]
  simp only [expireatKey, h2]
  simpa using findE_setKey_same _ _ _

theorem expireat_some {σ : Store} {t : Nat} {k : String} (e : Entry) (ts : Nat)
    (h : getEntry σ t k = some e) :
    expireatKey σ t k ts = setKey σ k ⟨e.val, some ts⟩ := by
  simp [expireatKey, h]

theorem rpush_absent {σ : Store} {t : Nat} {k x : String}
    (h : getEntry σ t k = none) :
    rpush σ t k x = setKey σ k ⟨Val.list [x], none⟩ := by
  simp [rpush, h]

theorem rpush_list {σ : Store} {t : Nat} {k x : String} (l : List String)
    (ex : Option Nat) (h : getEntry σ t k = some ⟨Val.list l, ex⟩) :
    rpush σ t k x = setKey σ k ⟨Val.list (l ++ [x]), ex⟩ := by
  simp [rpush, h]

theorem setnxInt_live {σ : Store} {t : Nat} {k : String} (n : Nat)
    (h : keyLive σ t k = true) : setnxInt σ t k n = σ := by
  simp [setnxInt, h]

theorem setnxInt_free {σ : Store} {t : Nat} {k : String} (n : Nat)
    (h : keyLive σ t k = false) :
    setnxInt σ t k n = setKey σ k ⟨Val.str (Blob.intBlob n), none⟩ := by
  simp [setnxInt, h]

theorem incr_int {σ : Store} {t : Nat} {k : String} (n : Nat) (ex : Option Nat)
    (h : getEntry σ t k = some ⟨Val.str (Blob.intBlob n), ex⟩) :
    incrKey σ t k = setKey σ k ⟨Val.str (Blob.intBlob (n + 1)), ex⟩ := by
  simp [incrKey, h]

theorem incr_absent {σ : Store} {t : Nat} {k : String}
    (h : getEntry σ t k = none) :
    incrKey σ t k = setKey σ k ⟨Val.str (Blob.intBlob 1), none⟩ := by
  simp [incrKey, h]

theorem create_request_store_list (pfx : String) (ttl : Nat) (g : Nat → String)
    (σ : Store) (t : Nat) (bin : Bin) (payload : String)
    (hfree : keyLive σ t (key_request pfx bin.name (g 0)) = false)
    (hlist : listTypedB σ t (key_request_list pfx bin.name) = true) :
    findE (create_request pfx ttl g σ t bin payload).store
        (key_request_list pfx bin.name) =
      some ⟨Val.list (getList σ t (key_request_list pfx bin.name) ++ [g 0]),
        some (bin.created + ttl + 1)⟩ := by
  rw [create_request_free pfx ttl g σ t bin payload hfree]
  have hLR : key_request_list pfx bin.name ≠ key_request pfx bin.name (g 0) :=
    key_list_ne_request pfx bin.name (g 0)
  have hLC : key_request_list pfx bin.name ≠ request_count_key pfx :=
    (key_list_ne_counter pfx bin.name).symm.symm
  rw [findE_incr_ne hLC, findE_setnxInt_ne 0 hLC]
  have hget : getEntry (expireatKey (setStr σ (key_request pfx bin.name (g 0))
      (Blob.reqBlob ⟨g 0, payload⟩)) t (key_request pfx bin.name (g 0))
      (bin.created + ttl + 2)) t (key_request_list pfx bin.name) =
      getEntry σ t (key_request_list pfx bin.name) := by
    rw [getEntry_expireat_ne _ hLR]
    simp [setStr, getEntry_setKey_ne _ hLR]
  cases hE : getEntry σ t (key_request_list pfx bin.name) with
  | none =>
    have hgl : getList σ t (key_request_list pfx bin.name) = [] := by
      simp [getList, hE]
    rw [hgl, rpush_absent (hget.trans hE)]
    rw [expireat_some ⟨Val.list [g 0], none⟩ (bin.created + ttl + 1)
      (by rw [getEntry_setKey_same]; simp [liveEntry])]
    simpa using findE_setKey_same _ _ _
  | some e =>
    obtain ⟨v, ex⟩ := e
    cases v with
    | str b => simp [listTypedB, hE] at hlist
    | list l =>
      have hgl : getList σ t (key_request_list pfx bin.name) = l := by
        simp [getList, hE]
      have hlive : liveEntry (⟨Val.list l, ex⟩ : Entry) t = true := getEntry_live hE
      rw [hgl, rpush_list l ex (hget.trans hE)]
      rw [expireat_some ⟨Val.list (l ++ [g 0]), ex⟩ (bin.created + ttl + 1)
        (by rw [getEntry_setKey_same]; simpa [liveEntry] using hlive)]
      simpa using findE_setKey_same _ _ _

theorem create_request_counter (pfx : String) (ttl : Nat) (g : Nat → String)
    (σ : Store) (t : Nat) (bin : Bin) (payload : String)
    (hfree : keyLive σ t (key_request pfx bin.name (g 0)) = false)
    (hcnt : counterTypedB σ t (request_count_key pfx) = true) :
    findE (create_request pfx ttl g σ t bin payload).store (request_count_key pfx) =
      some ⟨Val.str (Blob.intBlob (count_requests pfx σ t + 1)),
        (getEntry σ t (request_count_key pfx)).bind (fun e => e.expireAt)⟩ ∧
    liveEntry ⟨Val.str (Blob.intBlob (count_requests pfx σ t + 1)),
        (getEntry σ t (request_count_key pfx)).bind (fun e => e.expireAt)⟩ t = true := by
  rw [create_request_free pfx ttl g σ t bin payload hfree]
  have hCR : request_count_key pfx ≠ key_request pfx bin.name (g 0) :=
    (key_request_ne_counter pfx bin.name (g 0)).symm
  have hCL : request_count_key pfx ≠ key_request_list pfx bin.name :=
    (key_list_ne_counter pfx bin.name).symm
  have h4 : getEntry (expireatKey (rpush (expireatKey (setStr σ
      (key_request pfx bin.name (g 0)) (Blob.reqBlob ⟨g 0, payload⟩)) t
      (key_request pfx bin.name (g 0)) (bin.created + ttl + 2)) t
      (key_request_list pfx bin.name) (g 0)) t (key_request_list pfx bin.name)
      (bin.created + ttl + 1)) t (request_count_key pfx) =
      getEntry σ t (request_count_key pfx) := by
    rw [getEntry_expireat_ne _ hCL, getEntry_rpush_ne hCL, getEntry_expireat_ne _ hCR]
    simp [setStr, getEntry_setKey_ne _ hCR]
  cases hE : getEntry σ t (request_count_key pfx) with
  | none =>
    have hc0 : count_requests pfx σ t = 0 := by simp [count_requests, getStr, hE]
    rw [hc0]
    rw [setnxInt_free 0 (by simp [keyLive, h4, hE])]
    rw [incr_int 0 none (by rw [getEntry_setKey_same]; simp [liveEntry])]
    constructor
    · simpa using findE_setKey_same _ _ _
    · simp [liveEntry]
  | some e =>
    obtain ⟨v, ex⟩ := e
    cases v with
    | list l => simp [counterTypedB, hE] at hcnt
    | str b =>
      cases b with
      | intBlob n =>
        have hcn : count_requests pfx σ t = n := by simp [count_requests, getStr, hE]
        have hlive : liveEntry (⟨Val.str (Blob.intBlob n), ex⟩ : Entry) t = true :=
          getEntry_live hE
        rw [hcn]
        rw [setnxInt_live 0 (by simp [keyLive, h4, hE])]
        rw [incr_int n ex (h4.trans hE)]
        constructor
        · simpa using findE_setKey_same _ _ _
        · simpa [liveEntry] using hlive
      | binBlob name created priv => simp [counterTypedB, hE] at hcnt
      | reqBlob r => simp [counterTypedB, hE] at hcnt
      | corrupt => simp [counterTypedB, hE] at hcnt

theorem create_request_frame (pfx : String) (ttl : Nat) (g : Nat → String)
    (σ : Store) (t : Nat) (bin : Bin) (payload : String)
    (hfree : keyLive σ t (key_request pfx bin.name (g 0)) = false)
    (k : String) (h1 : k ≠ key_request pfx bin.name (g 0))
    (h2 : k ≠ key_request_list pfx bin.name)
    (h3 : k ≠ request_count_key pfx) :
    findE (create_request pfx ttl g σ t bin payload).store k = findE σ k := by
  rw [create_request_free pfx ttl g σ t bin payload hfree]
  rw [findE_incr_ne h3, findE_setnxInt_ne 0 h3, findE_expireat_ne _ h2,
    findE_rpush_ne h2, findE_expireat_ne _ h1]
  simp [setStr, findE_setKey_ne _ h1]


theorem setKey_setKey (σ : Store) (k : String) (e1 e2 : Entry) :
    setKey (setKey σ k e1) k e2 = setKey σ k e2 := by
  simp [setKey, List.filter_filter]

theorem create_bin_spec (pfx : String) (ttl : Nat) (σ : Store) (t : Nat)
    (name : String) (priv : Bool) :
    (create_bin pfx ttl σ t name priv).2 = ⟨name, t, priv, []⟩ ∧
    findE (create_bin pfx ttl σ t name priv).1 (key_bin pfx name) =
      some ⟨Val.str (Blob.binBlob name t priv), some (t + ttl)⟩ ∧
    ∀ k, k ≠ key_bin pfx name →
      findE (create_bin pfx ttl σ t name priv).1 k = findE σ k := by
  refine ⟨rfl, ?_, ?_⟩
  · show findE (expireatKey (setStr σ (key_bin pfx name)
      (Bin.dump ⟨name, t, priv, []⟩)) t (key_bin pfx name) (t + ttl)) (key_bin pfx name) = _
    rw [expireat_some ⟨Val.str (Blob.binBlob name t priv), none⟩ (t + ttl)
      (by simp [setStr, Bin.dump, getEntry_setKey_same, liveEntry])]
    simpa using findE_setKey_same _ _ _
  · intro k hk
    show findE (expireatKey (setStr σ (key_bin pfx name)
      (Bin.dump ⟨name, t, priv, []⟩)) t (key_bin pfx name) (t + ttl)) k = _
    rw [findE_expireat_ne _ hk]
    simp [setStr, findE_setKey_ne _ hk]

theorem lrange_all (l : List String) : lrange l 0 (l.length - 1) = l := by
  cases l with
  | nil => rfl
  | cons x xs =>
    unfold lrange
    have h : (x :: xs).length - 1 + 1 - 0 = (x :: xs).length := by simp
    rw [h]
    simp

theorem loadRequests_map {α : Type} (f : α → Request) (L : List α) :
    loadRequests (L.map (fun c => some (Blob.reqBlob (f c)))) = Except.ok (L.map f) := by
  induction L with
  | nil => rfl
  | cons c L ih => simp [loadRequests, Request.load, ih]

/-- Unfolding of `lookup_bin` in the fully successful case: live parseable
details record, index list holding exactly the ids of `L`, and a live record
behind each id.  The result is the requests in reverse append order. -/
theorem lookup_bin_reads (pfx : String) (σ : Store) (t : Nat) (name : String)
    (created : Nat) (priv : Bool) (L : List (String × String))
    (hB : getStr σ t (key_bin pfx name) = some (Blob.binBlob name created priv))
    (hL : getList σ t (key_request_list pfx name) = L.map Prod.fst)
    (hR : ∀ c ∈ L, getStr σ t (key_request pfx name c.1) =
      some (Blob.reqBlob ⟨c.1, c.2⟩)) :
    lookup_bin pfx σ t name =
      (σ, Except.ok ⟨name, created, priv,
        (L.map (fun c => Request.mk c.1 c.2)).reverse⟩) := by
  have hload : Bin.load (getStr σ t (key_bin pfx name)) =
      Except.ok ⟨name, created, priv, []⟩ := by rw [hB]; rfl
  cases L with
  | nil =>
    simp only [lookup_bin, hload, hL]
    simp
  | cons c L' =>
    have hser : (List.map Prod.fst (c :: L')).map
        (fun i => getStr σ t (key_request pfx name i)) =
        (c :: L').map (fun c => some (Blob.reqBlob ⟨c.1, c.2⟩)) := by
      rw [List.map_map]
      exact List.map_congr_left (fun a ha => hR a ha)
    have hloadall : loadRequests ((c :: L').map
        (fun c => some (Blob.reqBlob ⟨c.1, c.2⟩))) =
        Except.ok ((c :: L').map (fun c => Request.mk c.1 c.2)) :=
      loadRequests_map (fun c => Request.mk c.1 c.2) (c :: L')
    simp only [lookup_bin, hload, hL]
    rw [if_pos (by simp)]
    rw [show (List.map Prod.fst (c :: L')).length - 1 =
      (List.map Prod.fst (c :: L')).length - 1 from rfl]
    rw [lrange_all, hser, hloadall]

/-- One `create_request` call per element: each element carries the target
bin, the id its (constant) generator produces, and the payload.  The flag
records whether every call succeeded. -/
def runCreates (pfx : String) (ttl : Nat) (t : Nat) :
    Store → List (Bin × String × String) → Store × Bool
  | σ, [] => (σ, true)
  | σ, c :: rest =>
    let r := create_request pfx ttl (fun _ => c.2.1) σ t c.1 c.2.2
    let w := runCreates pfx ttl t r.store rest
    (w.1, isOkE r.result && w.2)


theorem getEntry_of_findE_eq {σ2 σ : Store} {k : String} (t : Nat)
    (h : findE σ2 k = findE σ k) : getEntry σ2 t k = getEntry σ t k := by
  simp [getEntry, h]

theorem getStr_of_findE_eq {σ2 σ : Store} {k : String} (t : Nat)
    (h : findE σ2 k = findE σ k) : getStr σ2 t k = getStr σ t k := by
  simp [getStr, getEntry_of_findE_eq t h]

theorem getList_of_findE_eq {σ2 σ : Store} {k : String} (t : Nat)
    (h : findE σ2 k = findE σ k) : getList σ2 t k = getList σ t k := by
  simp [getList, getEntry_of_findE_eq t h]

theorem getStr_of_findE {σ : Store} {t : Nat} {k : String} {b : Blob}
    {ex : Option Nat} (hf : findE σ k = some ⟨Val.str b, ex⟩)
    (hl : liveEntry ⟨Val.str b, ex⟩ t = true) : getStr σ t k = some b := by
  simp [getStr, getEntry_of_findE hf hl]

theorem getList_of_findE {σ : Store} {t : Nat} {k : String} {l : List String}
    {ex : Option Nat} (hf : findE σ k = some ⟨Val.list l, ex⟩)
    (hl : liveEntry ⟨Val.list l, ex⟩ t = true) : getList σ t k = l := by
  simp [getList, getEntry_of_findE hf hl]

/-- Induction workhorse for counter monotonicity: any sequence of successful
`create_request` calls (against arbitrary bins) adds exactly its length to
the global counter, keeps the counter integer-typed, and never attaches an
expiration to the counter key. -/
theorem runCreates_counter (pfx : String) (ttl : Nat) (t : Nat) :
    ∀ (calls : List (Bin × String × String)) (σ : Store),
      counterTypedB σ t (request_count_key pfx) = true →
      (runCreates pfx ttl t σ calls).2 = true →
      count_requests pfx (runCreates pfx ttl t σ calls).1 t =
        count_requests pfx σ t + calls.length ∧
      counterTypedB (runCreates pfx ttl t σ calls).1 t (request_count_key pfx) = true ∧
      (calls ≠ [] →
        (findE (runCreates pfx ttl t σ calls).1 (request_count_key pfx)).map
          (fun e => e.expireAt) =
        some ((getEntry σ t (request_count_key pfx)).bind (fun e => e.expireAt))) := by
  intro calls
  induction calls with
  | nil =>
    intro σ hcnt _
    refine ⟨by simp [runCreates], by simpa [runCreates] using hcnt, by simp⟩
  | cons c rest ih =>
    intro σ hcnt hok
    simp only [runCreates, Bool.and_eq_true] at hok
    obtain ⟨hok1, hok2⟩ := hok
    have hfree : keyLive σ t (key_request pfx c.1.name c.2.1) = false := by
      have := (create_request_ok_iff pfx ttl (fun _ => c.2.1) σ t c.1 c.2.2).mp hok1
      simpa using this
    have hcounter := create_request_counter pfx ttl (fun _ => c.2.1) σ t c.1 c.2.2
      (by simpa using hfree) hcnt
    have hgetC : getEntry (create_request pfx ttl (fun _ => c.2.1) σ t c.1 c.2.2).store
        t (request_count_key pfx) =
        some ⟨Val.str (Blob.intBlob (count_requests pfx σ t + 1)),
          (getEntry σ t (request_count_key pfx)).bind (fun e => e.expireAt)⟩ :=
      getEntry_of_findE hcounter.1 hcounter.2
    have hcount1 : count_requests pfx
        (create_request pfx ttl (fun _ => c.2.1) σ t c.1 c.2.2).store t =
        count_requests pfx σ t + 1 := by
      simp [count_requests, getStr, hgetC]
    have htyped1 : counterTypedB
        (create_request pfx ttl (fun _ => c.2.1) σ t c.1 c.2.2).store t
        (request_count_key pfx) = true := by
      simp [counterTypedB, hgetC]
    obtain ⟨ihc, iht, ihe⟩ := ih
      (create_request pfx ttl (fun _ => c.2.1) σ t c.1 c.2.2).store htyped1 hok2
    refine ⟨?_, ?_, ?_⟩
    · simp only [runCreates]
      rw [ihc, hcount1]
      simp [Nat.add_assoc, Nat.add_comm 1 rest.length]
    · simpa only [runCreates] using iht
    · intro _
      simp only [runCreates]
      cases hrest : rest with
      | nil =>
        simp only [hrest, runCreates] at *
        rw [hcounter.1]
        simp
      | cons d rest2 =>
        have h5 := ihe (by simp [hrest])
        rw [hrest] at h5
        rw [h5, hgetC]
        simp


/-- Induction workhorse for newest-first ordering: starting from a store
whose index list holds exactly the ids of the already-created `P` and whose
pending ids `R` are fresh and pairwise distinct, running one
`create_request` per element of `R` succeeds throughout, extends the index
in append order, and keeps every request record readable. -/
theorem runCreates_bin (pfx : String) (ttl : Nat) (t : Nat) (bin : Bin)
    (htime : t < bin.created + ttl + 1) :
    ∀ (R P : List (String × String)) (σ : Store),
      getStr σ t (key_bin pfx bin.name) = some (Bin.dump bin) →
      getList σ t (key_request_list pfx bin.name) = P.map Prod.fst →
      listTypedB σ t (key_request_list pfx bin.name) = true →
      (∀ c ∈ P, getStr σ t (key_request pfx bin.name c.1) =
        some (Blob.reqBlob ⟨c.1, c.2⟩)) →
      (∀ c ∈ R, getEntry σ t (key_request pfx bin.name c.1) = none) →
      ((P ++ R).map Prod.fst).Nodup →
      (runCreates pfx ttl t σ (R.map (fun c => (bin, c.1, c.2)))).2 = true ∧
      getStr (runCreates pfx ttl t σ (R.map (fun c => (bin, c.1, c.2)))).1 t
        (key_bin pfx bin.name) = some (Bin.dump bin) ∧
      getList (runCreates pfx ttl t σ (R.map (fun c => (bin, c.1, c.2)))).1 t
        (key_request_list pfx bin.name) = (P ++ R).map Prod.fst ∧
      (∀ c ∈ P ++ R,
        getStr (runCreates pfx ttl t σ (R.map (fun c => (bin, c.1, c.2)))).1 t
          (key_request pfx bin.name c.1) = some (Blob.reqBlob ⟨c.1, c.2⟩)) := by
  intro R
  induction R with
  | nil =>
    intro P σ hB hL hT hP hR hnd
    refine ⟨by simp [runCreates], by simpa [runCreates] using hB,
      by simpa [runCreates] using hL, by simpa [runCreates] using hP⟩
  | cons c R' ih =>
    intro P σ hB hL hT hP hR hnd
    have hnd0 := hnd
    rw [List.map_append, List.map_cons] at hnd
    obtain ⟨hndP, hndCR, hdisj⟩ := List.nodup_append.mp hnd
    have hcR : c.1 ∉ List.map Prod.fst R' := (List.nodup_cons.mp hndCR).1
    have hPne : ∀ c2, c2 ∈ P → c2.1 ≠ c.1 := fun c2 hc2 heq =>
      hdisj (List.mem_map_of_mem Prod.fst hc2) (by simp [heq])
    have hRne : ∀ c2, c2 ∈ R' → c2.1 ≠ c.1 := fun c2 hc2 heq =>
      hcR (heq ▸ List.mem_map_of_mem Prod.fst hc2)
    have hfresh : getEntry σ t (key_request pfx bin.name c.1) = none :=
      hR c (by simp)
    have hfree : keyLive σ t (key_request pfx bin.name c.1) = false := by
      simp [keyLive, hfresh]
    have hreq : findE (create_request pfx ttl (fun _ => c.1) σ t bin c.2).store
        (key_request pfx bin.name c.1) =
        some ⟨Val.str (Blob.reqBlob ⟨c.1, c.2⟩), some (bin.created + ttl + 2)⟩ := by
      simpa using create_request_store_request pfx ttl (fun _ => c.1) σ t bin c.2
        (by simpa using hfree)
    have hlist : findE (create_request pfx ttl (fun _ => c.1) σ t bin c.2).store
        (key_request_list pfx bin.name) =
        some ⟨Val.list (List.map Prod.fst P ++ [c.1]), some (bin.created + ttl + 1)⟩ := by
      have h := create_request_store_list pfx ttl (fun _ => c.1) σ t bin c.2
        (by simpa using hfree) hT
      rw [hL] at h
      simpa using h
    have hliveL : liveEntry
        (⟨Val.list (List.map Prod.fst P ++ [c.1]), some (bin.created + ttl + 1)⟩ : Entry)
        t = true := by
      simp [liveEntry]; omega
    have hliveR : liveEntry
        (⟨Val.str (Blob.reqBlob ⟨c.1, c.2⟩), some (bin.created + ttl + 2)⟩ : Entry)
        t = true := by
      simp [liveEntry]; omega
    have hframe : ∀ k, k ≠ key_request pfx bin.name c.1 →
        k ≠ key_request_list pfx bin.name → k ≠ request_count_key pfx →
        findE (create_request pfx ttl (fun _ => c.1) σ t bin c.2).store k = findE σ k := by
      intro k h1 h2 h3
      exact create_request_frame pfx ttl (fun _ => c.1) σ t bin c.2
        (by simpa using hfree) k (by simpa using h1) h2 h3
    have hB2 : getStr (create_request pfx ttl (fun _ => c.1) σ t bin c.2).store t
        (key_bin pfx bin.name) = some (Bin.dump bin) := by
      rw [getStr_of_findE_eq t (hframe _ (key_bin_ne_request pfx bin.name c.1)
        (key_bin_ne_list pfx bin.name) (key_bin_ne_counter pfx bin.name))]
      exact hB
    have hL2 : getList (create_request pfx ttl (fun _ => c.1) σ t bin c.2).store t
        (key_request_list pfx bin.name) = (P ++ [c]).map Prod.fst := by
      rw [getList_of_findE hlist hliveL]
      simp
    have hT2 : listTypedB (create_request pfx ttl (fun _ => c.1) σ t bin c.2).store t
        (key_request_list pfx bin.name) = true := by
      simp [listTypedB, getEntry_of_findE hlist hliveL]
    have hP2 : ∀ c2 ∈ P ++ [c],
        getStr (create_request pfx ttl (fun _ => c.1) σ t bin c.2).store t
          (key_request pfx bin.name c2.1) = some (Blob.reqBlob ⟨c2.1, c2.2⟩) := by
      intro c2 hc2
      rcases List.mem_append.mp hc2 with hc2 | hc2
      · rw [getStr_of_findE_eq t (hframe _
          (fun h => hPne c2 hc2 (key_request_inj h))
          ((key_list_ne_request pfx bin.name c2.1).symm)
          (key_request_ne_counter pfx bin.name c2.1))]
        exact hP c2 hc2
      · obtain rfl : c2 = c := by simpa using hc2
        exact getStr_of_findE hreq hliveR
    have hR2 : ∀ c2 ∈ R',
        getEntry (create_request pfx ttl (fun _ => c.1) σ t bin c.2).store t
          (key_request pfx bin.name c2.1) = none := by
      intro c2 hc2
      rw [getEntry_of_findE_eq t (hframe _
        (fun h => hRne c2 hc2 (key_request_inj h))
        ((key_list_ne_request pfx bin.name c2.1).symm)
        (key_request_ne_counter pfx bin.name c2.1))]
      exact hR c2 (by simp [hc2])
    have hnd2 : (((P ++ [c]) ++ R').map Prod.fst).Nodup := by
      rw [List.append_assoc]
      simpa using hnd0
    obtain ⟨ihflag, ihB, ihL, ihP⟩ :=
      ih (P ++ [c]) (create_request pfx ttl (fun _ => c.1) σ t bin c.2).store
        hB2 hL2 hT2 hP2 hR2 hnd2
    have hok : isOkE (create_request pfx ttl (fun _ => c.1) σ t bin c.2).result = true := by
      rw [create_request_ok_iff]
      simpa using hfree
    refine ⟨?_, ?_, ?_, ?_⟩
    · simp only [runCreates, List.map_cons]
      simpa [hok] using ihflag
    · simpa only [runCreates, List.map_cons] using ihB
    · rw [List.append_cons P c R']
      simpa only [runCreates, List.map_cons] using ihL
    · intro c2 hc2
      rw [List.append_cons P c R'] at hc2
      simpa only [runCreates, List.map_cons] using ihP c2 hc2


deriving instance DecidableEq for Except

theorem lookup_bin_load_fail {pfx : String} {σ : Store} {t : Nat} {name : String}
    (h : Bin.load (getStr σ t (key_bin pfx name)) = Except.error LoadErr.typeError) :
    lookup_bin pfx σ t name =
      (delKey σ (key_bin pfx name), Except.error StorageErr.notFound) := by
  simp only [lookup_bin, h]

theorem getStr_delKey_same (σ : Store) (t : Nat) (k : String) :
    getStr (delKey σ k) t k = none := by
  simp [getStr, getEntry, findE_delKey_same]

/-- A store with a live, parseable bin `b`, an index list naming ids `a` and
`c`, but a backing record only for `a` — the record for `c` has expired. -/
def c1store : Store :=
  [(key_bin "p" "b", ⟨Val.str (Blob.binBlob "b" 0 false), some 100⟩),
   (key_request_list "p" "b", ⟨Val.list ["a", "c"], some 101⟩),
   (key_request "p" "b" "a", ⟨Val.str (Blob.reqBlob ⟨"a", "x"⟩), some 102⟩)]

/-- C1: the claim says that when some ids in a bin's index have no backing
request record, `lookup_bin` still returns the Bin, skipping the missing
entries, and does not delete the details key.  The code does the opposite:
`Request.load(None)` raises `TypeError`, which is caught by the corrupt-data
handler, so the read fails with `NotFound` and the healthy bin's details key
is deleted. -/
theorem c1_lookup_missing_record_deletes_bin :
    (lookup_bin "p" c1store 0 "b").2 = Except.error StorageErr.notFound ∧
    findE (lookup_bin "p" c1store 0 "b").1 (key_bin "p" "b") = none := by
  constructor
  · decide
  · decide

/-- C2: if the conditional SETNX write fails on every attempt — equivalently,
the key computed from the first generated id is already occupied, since that
key is never recomputed — `create_request` performs exactly 50 attempts,
fails with the fatal id-allocation error, and leaves the store untouched (no
index append, no counter increment); if an attempt succeeds it is the first
one, and the loop stops immediately after it. -/
theorem c2_create_request_retry_budget (pfx : String) (ttl : Nat)
    (g : Nat → String) (σ : Store) (t : Nat) (bin : Bin) (payload : String) :
    (keyLive σ t (key_request pfx bin.name (g 0)) = true →
      create_request pfx ttl g σ t bin payload =
        ⟨σ, Except.error StorageErr.idAllocationExhausted, 50⟩) ∧
    (keyLive σ t (key_request pfx bin.name (g 0)) = false →
      (create_request pfx ttl g σ t bin payload).attempts = 1 ∧
      isOkE (create_request pfx ttl g σ t bin payload).result = true) := by
  constructor
  · intro h
    exact create_request_occupied pfx ttl g σ t bin payload h
  · intro h
    rw [create_request_free pfx ttl g σ t bin payload h]
    exact ⟨rfl, rfl⟩

theorem c2_create_request_retry_budget_witness :
    keyLive [(key_request "p" "b" "a",
        ⟨Val.str (Blob.reqBlob ⟨"a", "z"⟩), none⟩)] 0 (key_request "p" "b" "a") = true ∧
    create_request "p" 100 (fun _ => "a")
        [(key_request "p" "b" "a", ⟨Val.str (Blob.reqBlob ⟨"a", "z"⟩), none⟩)]
        0 ⟨"b", 0, false, []⟩ "x" =
      ⟨[(key_request "p" "b" "a", ⟨Val.str (Blob.reqBlob ⟨"a", "z"⟩), none⟩)],
        Except.error StorageErr.idAllocationExhausted, 50⟩ ∧
    keyLive [] 0 (key_request "p" "b" "a") = false ∧
    (create_request "p" 100 (fun _ => "a") [] 0 ⟨"b", 0, false, []⟩ "x").attempts = 1 ∧
    isOkE (create_request "p" 100 (fun _ => "a") [] 0 ⟨"b", 0, false, []⟩ "x").result = true :=
  ⟨by decide,
   (c2_create_request_retry_budget "p" 100 (fun _ => "a")
     [(key_request "p" "b" "a", ⟨Val.str (Blob.reqBlob ⟨"a", "z"⟩), none⟩)]
     0 ⟨"b", 0, false, []⟩ "x").1 (by decide),
   by decide,
   (c2_create_request_retry_budget "p" 100 (fun _ => "a") [] 0
     ⟨"b", 0, false, []⟩ "x").2 (by decide)⟩

/-- C3: `create_bin` sets the details key to expire at `created + ttl`; a
successful `create_request` sets the per-request record to expire at
`created + ttl + 2` and the index list to expire at `created + ttl + 1`;
the three expirations are strictly staggered one second apart. -/
theorem c3_expiration_staggering (pfx : String) (ttl : Nat) (σ σ2 : Store)
    (t t2 : Nat) (name : String) (priv : Bool) (g : Nat → String) (bin : Bin)
    (payload : String)
    (hfree : keyLive σ2 t2 (key_request pfx bin.name (g 0)) = false)
    (hlist : listTypedB σ2 t2 (key_request_list pfx bin.name) = true) :
    (findE (create_bin pfx ttl σ t name priv).1 (key_bin pfx name)).map
        (fun e => e.expireAt) = some (some (t + ttl)) ∧
    (findE (create_request pfx ttl g σ2 t2 bin payload).store
        (key_request pfx bin.name (g 0))).map (fun e => e.expireAt) =
      some (some (bin.created + ttl + 2)) ∧
    (findE (create_request pfx ttl g σ2 t2 bin payload).store
        (key_request_list pfx bin.name)).map (fun e => e.expireAt) =
      some (some (bin.created + ttl + 1)) ∧
    bin.created + ttl < bin.created + ttl + 1 ∧
    bin.created + ttl + 1 < bin.created + ttl + 2 := by
  refine ⟨?_, ?_, ?_, by omega, by omega⟩
  · rw [(create_bin_spec pfx ttl σ t name priv).2.1]
    rfl
  · rw [create_request_store_request pfx ttl g σ2 t2 bin payload hfree]
    rfl
  · rw [create_request_store_list pfx ttl g σ2 t2 bin payload hfree hlist]
    rfl

theorem c3_expiration_staggering_witness :
    keyLive [] 0 (key_request "p" "b" "a") = false ∧
    listTypedB [] 0 (key_request_list "p" "b") = true ∧
    ((findE (create_bin "p" 100 [] 0 "b" false).1 (key_bin "p" "b")).map
        (fun e => e.expireAt) = some (some (0 + 100)) ∧
      (findE (create_request "p" 100 (fun _ => "a") [] 0 ⟨"b", 0, false, []⟩ "x").store
          (key_request "p" "b" "a")).map (fun e => e.expireAt) =
        some (some (0 + 100 + 2)) ∧
      (findE (create_request "p" 100 (fun _ => "a") [] 0 ⟨"b", 0, false, []⟩ "x").store
          (key_request_list "p" "b")).map (fun e => e.expireAt) =
        some (some (0 + 100 + 1)) ∧
      0 + 100 < 0 + 100 + 1 ∧
      0 + 100 + 1 < 0 + 100 + 2) :=
  ⟨by decide, by decide,
   c3_expiration_staggering "p" 100 [] [] 0 0 "b" false (fun _ => "a")
     ⟨"b", 0, false, []⟩ "x" (by decide) (by decide)⟩

/-- C5: a details key holding unparseable data makes `lookup_bin` delete the
key and fail with `NotFound`, and a repeated lookup (no intervening writes)
fails with `NotFound` again; an absent details key also yields `NotFound`. -/
theorem c5_corrupt_self_heal (pfx : String) (σ : Store) (t : Nat) (name : String) :
    (getStr σ t (key_bin pfx name) = some Blob.corrupt →
      (lookup_bin pfx σ t name).2 = Except.error StorageErr.notFound ∧
      findE (lookup_bin pfx σ t name).1 (key_bin pfx name) = none ∧
      (lookup_bin pfx (lookup_bin pfx σ t name).1 t name).2 =
        Except.error StorageErr.notFound) ∧
    (getStr σ t (key_bin pfx name) = none →
      (lookup_bin pfx σ t name).2 = Except.error StorageErr.notFound) := by
  constructor
  · intro hcorrupt
    have h1 : Bin.load (getStr σ t (key_bin pfx name)) =
        Except.error LoadErr.typeError := by rw [hcorrupt]; rfl
    rw [lookup_bin_load_fail h1]
    refine ⟨rfl, findE_delKey_same σ _, ?_⟩
    have h2 : Bin.load (getStr (delKey σ (key_bin pfx name)) t (key_bin pfx name)) =
        Except.error LoadErr.typeError := by
      rw [getStr_delKey_same]; rfl
    rw [lookup_bin_load_fail h2]
  · intro habsent
    have h1 : Bin.load (getStr σ t (key_bin pfx name)) =
        Except.error LoadErr.typeError := by rw [habsent]; rfl
    rw [lookup_bin_load_fail h1]

theorem c5_corrupt_self_heal_witness :
    getStr [(key_bin "p" "b", ⟨Val.str Blob.corrupt, none⟩)] 0 (key_bin "p" "b") =
      some Blob.corrupt ∧
    ((lookup_bin "p" [(key_bin "p" "b", ⟨Val.str Blob.corrupt, none⟩)] 0 "b").2 =
        Except.error StorageErr.notFound ∧
      findE (lookup_bin "p" [(key_bin "p" "b", ⟨Val.str Blob.corrupt, none⟩)] 0 "b").1
        (key_bin "p" "b") = none ∧
      (lookup_bin "p"
        (lookup_bin "p" [(key_bin "p" "b", ⟨Val.str Blob.corrupt, none⟩)] 0 "b").1
        0 "b").2 = Except.error StorageErr.notFound) ∧
    getStr [] 0 (key_bin "p" "b") = none ∧
    (lookup_bin "p" [] 0 "b").2 = Except.error StorageErr.notFound :=
  ⟨by decide,
   (c5_corrupt_self_heal "p" [(key_bin "p" "b", ⟨Val.str Blob.corrupt, none⟩)]
     0 "b").1 (by decide),
   by decide,
   (c5_corrupt_self_heal "p" [] 0 "b").2 (by decide)⟩

theorem isPre_app_ne (l : List Char) (xs ys : List Char) (a b : Char) (h : a ≠ b) :
    List.isPrefixOf (l ++ a :: xs) (l ++ b :: ys) = false := by
  induction l with
  | nil => simp [List.isPrefixOf, h]
  | cons c cs ih => simpa [List.isPrefixOf] using ih

theorem patMatch_key_bin (pfx name : String) :
    patMatch (pfx ++ "_*") (key_bin pfx name) = false := by
  unfold patMatch
  have h2 : (pfx ++ "_*").data.dropLast = pfx.data ++ ['_'] := by
    rw [String.data_append]
    rw [show pfx.data ++ ("_*" : String).data = (pfx.data ++ ['_']) ++ ['*'] by simp]
    rw [List.dropLast_concat]
  obtain ⟨rest, hrest⟩ : ∃ rest, (key_bin pfx name).data = pfx.data ++ ':' :: rest :=
    ⟨'b' :: 'i' :: 'n' :: 's' :: ':' :: (name.data ++ [':', 'd', 'e', 't', 'a', 'i', 'l', 's']),
      by simp [key_bin, String.data_append, List.append_assoc]⟩
  rw [h2, hrest]
  rw [show pfx.data ++ ['_'] = pfx.data ++ '_' :: [] by simp]
  exact isPre_app_ne pfx.data [] rest '_' ':' (by decide)

/-- C6: the claim says every created bin's details key is matched by the
enumeration pattern `count_bins` uses.  The code builds the pattern
`prefix_*` (underscore) while the key schema uses `prefix:`-separated keys,
so no bin-details key ever matches: right after `create_bin`, the details
key is live and readable yet `count_bins` reports zero. -/
theorem c6_count_bins_pattern_mismatch :
    (∀ pfx name : String, patMatch (pfx ++ "_*") (key_bin pfx name) = false) ∧
    count_bins "requestbin" (create_bin "requestbin" 100 [] 0 "abc" false).1 0 = 0 ∧
    getStr (create_bin "requestbin" 100 [] 0 "abc" false).1 0
        (key_bin "requestbin" "abc") = some (Blob.binBlob "abc" 0 false) := by
  refine ⟨patMatch_key_bin, by decide, by decide⟩

/-- C9 counterexample: `create_request` has no `return` statement — on a
fresh store the call succeeds and Python's implicit `None` (here `none`) is
what the caller receives, not the constructed Request. -/
theorem c9_returns_request_cex :
    (create_request "p" 100 (fun _ => "a") [] 0 ⟨"b", 0, false, []⟩ "x").result =
      Except.ok none := by decide

/-- C9 (amended): a successful `create_request` call returns `None` to the
caller; the constructed Request is only persisted, under the key derived
from the first generated id — which, on success, is necessarily the id the
record carries (a regenerated id can never succeed, since the key is never
recomputed). -/
theorem c9_returns_none (pfx : String) (ttl : Nat) (g : Nat → String)
    (σ : Store) (t : Nat) (bin : Bin) (payload : String)
    (hfree : keyLive σ t (key_request pfx bin.name (g 0)) = false) :
    (create_request pfx ttl g σ t bin payload).result = Except.ok none ∧
    findE (create_request pfx ttl g σ t bin payload).store
        (key_request pfx bin.name (g 0)) =
      some ⟨Val.str (Blob.reqBlob ⟨g 0, payload⟩), some (bin.created + ttl + 2)⟩ := by
  constructor
  · rw [create_request_free pfx ttl g σ t bin payload hfree]
  · exact create_request_store_request pfx ttl g σ t bin payload hfree

theorem c9_returns_none_witness :
    keyLive [] 0 (key_request "p" "b" "a") = false ∧
    ((create_request "p" 100 (fun _ => "a") [] 0 ⟨"b", 0, false, []⟩ "x").result =
        Except.ok none ∧
      findE (create_request "p" 100 (fun _ => "a") [] 0 ⟨"b", 0, false, []⟩ "x").store
          (key_request "p" "b" "a") =
        some ⟨Val.str (Blob.reqBlob ⟨"a", "x"⟩), some (0 + 100 + 2)⟩) :=
  ⟨by decide,
   c9_returns_none "p" 100 (fun _ => "a") [] 0 ⟨"b", 0, false, []⟩ "x" (by decide)⟩


/-- C4: after any sequence of successful `create_request` calls against one
bin (fresh, pairwise-distinct ids; no concurrent expiration, i.e. the read
happens while the staggered TTLs are still live), `lookup_bin` returns the
requests in reverse creation order — newest first. -/
theorem c4_lookup_newest_first (pfx : String) (ttl : Nat) (t : Nat) (bin : Bin)
    (σ : Store) (L : List (String × String))
    (htime : t < bin.created + ttl + 1)
    (hB : getStr σ t (key_bin pfx bin.name) = some (Bin.dump bin))
    (hL0 : getList σ t (key_request_list pfx bin.name) = [])
    (hT0 : listTypedB σ t (key_request_list pfx bin.name) = true)
    (hfresh : ∀ c ∈ L, getEntry σ t (key_request pfx bin.name c.1) = none)
    (hnd : (L.map Prod.fst).Nodup) :
    (runCreates pfx ttl t σ (L.map (fun c => (bin, c.1, c.2)))).2 = true ∧
    lookup_bin pfx (runCreates pfx ttl t σ (L.map (fun c => (bin, c.1, c.2)))).1 t
        bin.name =
      ((runCreates pfx ttl t σ (L.map (fun c => (bin, c.1, c.2)))).1,
        Except.ok ⟨bin.name, bin.created, bin.priv,
          (L.map (fun c => Request.mk c.1 c.2)).reverse⟩) := by
  obtain ⟨hflag, hB2, hL2, hP2⟩ := runCreates_bin pfx ttl t bin htime L [] σ hB
    (by simpa using hL0) hT0 (by simp) hfresh (by simpa using hnd)
  refine ⟨hflag, ?_⟩
  exact lookup_bin_reads pfx _ t bin.name bin.created bin.priv L
    (by simpa [Bin.dump] using hB2) (by simpa using hL2)
    (fun c hc => hP2 c (by simpa using hc))

/-- Store for the C4 witness: a single live bin with no requests yet. -/
def c4store : Store :=
  [(key_bin "p" "b", ⟨Val.str (Blob.binBlob "b" 0 false), some 100⟩)]

theorem c4_lookup_newest_first_witness :
    (0 : Nat) < 0 + 100 + 1 ∧
    getStr c4store 0 (key_bin "p" "b") = some (Bin.dump ⟨"b", 0, false, []⟩) ∧
    getList c4store 0 (key_request_list "p" "b") = [] ∧
    listTypedB c4store 0 (key_request_list "p" "b") = true ∧
    (∀ c ∈ [("a", "x"), ("c", "y")],
      getEntry c4store 0 (key_request "p" "b" c.1) = none) ∧
    ([("a", "x"), ("c", "y")].map Prod.fst).Nodup ∧
    ((runCreates "p" 100 0 c4store ([("a", "x"), ("c", "y")].map
        (fun c => ((⟨"b", 0, false, []⟩ : Bin), c.1, c.2)))).2 = true ∧
      lookup_bin "p" (runCreates "p" 100 0 c4store ([("a", "x"), ("c", "y")].map
          (fun c => ((⟨"b", 0, false, []⟩ : Bin), c.1, c.2)))).1 0 "b" =
        ((runCreates "p" 100 0 c4store ([("a", "x"), ("c", "y")].map
          (fun c => ((⟨"b", 0, false, []⟩ : Bin), c.1, c.2)))).1,
          Except.ok ⟨"b", 0, false,
            ([("a", "x"), ("c", "y")].map (fun c => Request.mk c.1 c.2)).reverse⟩)) :=
  ⟨by decide, by decide, by decide, by decide, by decide, by decide,
   c4_lookup_newest_first "p" 100 0 ⟨"b", 0, false, []⟩ c4store
     [("a", "x"), ("c", "y")] (by decide) (by decide) (by decide) (by decide)
     (by decide) (by decide)⟩

/-- C7: after any number of successful `create_request` calls, across any
bins, the global counter read by `count_requests` equals its initial value
(zero when the key is absent) plus the number of calls; and the calls attach
no expiration to the counter key — it keeps the expiration state it had
before (none, if it was absent). -/
theorem c7_counter_monotonicity (pfx : String) (ttl : Nat) (t : Nat)
    (σ : Store) (calls : List (Bin × String × String))
    (hcnt : counterTypedB σ t (request_count_key pfx) = true)
    (hok : (runCreates pfx ttl t σ calls).2 = true) :
    count_requests pfx (runCreates pfx ttl t σ calls).1 t =
      count_requests pfx σ t + calls.length ∧
    (calls ≠ [] →
      (findE (runCreates pfx ttl t σ calls).1 (request_count_key pfx)).map
        (fun e => e.expireAt) =
      some ((getEntry σ t (request_count_key pfx)).bind (fun e => e.expireAt))) := by
  obtain ⟨h1, _, h3⟩ := runCreates_counter pfx ttl t calls σ hcnt hok
  exact ⟨h1, h3⟩

/-- Calls for the C7 witness: two successful creations against two bins. -/
def c7calls : List (Bin × String × String) :=
  [(⟨"b", 0, false, []⟩, "a", "x"), (⟨"d", 0, false, []⟩, "c", "y")]

theorem c7_counter_monotonicity_witness :
    counterTypedB [] 0 (request_count_key "p") = true ∧
    (runCreates "p" 100 0 [] c7calls).2 = true ∧
    (count_requests "p" (runCreates "p" 100 0 [] c7calls).1 0 =
        count_requests "p" [] 0 + c7calls.length ∧
      (c7calls ≠ [] →
        (findE (runCreates "p" 100 0 [] c7calls).1 (request_count_key "p")).map
          (fun e => e.expireAt) =
        some ((getEntry [] 0 (request_count_key "p")).bind (fun e => e.expireAt)))) :=
  ⟨by decide, by decide,
   c7_counter_monotonicity "p" 100 0 [] c7calls (by decide) (by decide)⟩

/-- C8: for every positive ttl, a bin just written by `create_bin` is
immediately readable back by `lookup_bin` with the same name, creation time
and privacy flag, and an empty request sequence. -/
theorem c8_create_bin_then_lookup (pfx : String) (ttl : Nat) (σ : Store)
    (t : Nat) (name : String) (priv : Bool)
    (httl : 0 < ttl)
    (hL : getList σ t (key_request_list pfx name) = []) :
    (create_bin pfx ttl σ t name priv).2 = ⟨name, t, priv, []⟩ ∧
    lookup_bin pfx (create_bin pfx ttl σ t name priv).1 t name =
      ((create_bin pfx ttl σ t name priv).1, Except.ok ⟨name, t, priv, []⟩) := by
  obtain ⟨hbin, hfind, hframe⟩ := create_bin_spec pfx ttl σ t name priv
  have hB : getStr (create_bin pfx ttl σ t name priv).1 t (key_bin pfx name) =
      some (Blob.binBlob name t priv) := by
    apply getStr_of_findE hfind
    simp [liveEntry]; omega
  have hL2 : getList (create_bin pfx ttl σ t name priv).1 t
      (key_request_list pfx name) = [] := by
    rw [getList_of_findE_eq t (hframe _ (key_bin_ne_list pfx name).symm)]
    exact hL
  have hread := lookup_bin_reads pfx (create_bin pfx ttl σ t name priv).1 t name
    t priv [] hB (by simpa using hL2) (by simp)
  exact ⟨hbin, by simpa using hread⟩

theorem c8_create_bin_then_lookup_witness :
    (0 : Nat) < 100 ∧
    getList [] 0 (key_request_list "p" "b") = [] ∧
    ((create_bin "p" 100 [] 0 "b" false).2 = ⟨"b", 0, false, []⟩ ∧
      lookup_bin "p" (create_bin "p" 100 [] 0 "b" false).1 0 "b" =
        ((create_bin "p" 100 [] 0 "b" false).1,
          Except.ok ⟨"b", 0, false, []⟩)) :=
  ⟨by decide, by decide,
   c8_create_bin_then_lookup "p" 100 [] 0 "b" false (by decide) (by decide)⟩

/-- C10: `create_request` never reads the bin's details key — for a bin
value whose name has no live details record at all, the call still succeeds,
writes the request record, appends the id to that name's index list, and
increments the global counter, exactly as for a live bin. -/
theorem c10_no_bin_existence_check (pfx : String) (ttl : Nat) (g : Nat → String)
    (σ : Store) (t : Nat) (bin : Bin) (payload : String)
    (hnodetails : getEntry σ t (key_bin pfx bin.name) = none)
    (hfree : keyLive σ t (key_request pfx bin.name (g 0)) = false)
    (hlist : listTypedB σ t (key_request_list pfx bin.name) = true)
    (hcnt : counterTypedB σ t (request_count_key pfx) = true) :
    isOkE (create_request pfx ttl g σ t bin payload).result = true ∧
    findE (create_request pfx ttl g σ t bin payload).store
        (key_request pfx bin.name (g 0)) =
      some ⟨Val.str (Blob.reqBlob ⟨g 0, payload⟩), some (bin.created + ttl + 2)⟩ ∧
    findE (create_request pfx ttl g σ t bin payload).store
        (key_request_list pfx bin.name) =
      some ⟨Val.list (getList σ t (key_request_list pfx bin.name) ++ [g 0]),
        some (bin.created + ttl + 1)⟩ ∧
    count_requests pfx (create_request pfx ttl g σ t bin payload).store t =
      count_requests pfx σ t + 1 := by
  obtain ⟨hc1, hc2⟩ := create_request_counter pfx ttl g σ t bin payload hfree hcnt
  refine ⟨(create_request_ok_iff pfx ttl g σ t bin payload).mpr hfree,
    create_request_store_request pfx ttl g σ t bin payload hfree,
    create_request_store_list pfx ttl g σ t bin payload hfree hlist, ?_⟩
  simp [count_requests, getStr, getEntry_of_findE hc1 hc2]

theorem c10_no_bin_existence_check_witness :
    getEntry [] 0 (key_bin "p" "b") = none ∧
    keyLive [] 0 (key_request "p" "b" "a") = false ∧
    listTypedB [] 0 (key_request_list "p" "b") = true ∧
    counterTypedB [] 0 (request_count_key "p") = true ∧
    (isOkE (create_request "p" 100 (fun _ => "a") [] 0 ⟨"b", 0, false, []⟩ "x").result = true ∧
      findE (create_request "p" 100 (fun _ => "a") [] 0 ⟨"b", 0, false, []⟩ "x").store
          (key_request "p" "b" "a") =
        some ⟨Val.str (Blob.reqBlob ⟨"a", "x"⟩), some (0 + 100 + 2)⟩ ∧
      findE (create_request "p" 100 (fun _ => "a") [] 0 ⟨"b", 0, false, []⟩ "x").store
          (key_request_list "p" "b") =
        some ⟨Val.list (getList [] 0 (key_request_list "p" "b") ++ ["a"]),
          some (0 + 100 + 1)⟩ ∧
      count_requests "p"
          (create_request "p" 100 (fun _ => "a") [] 0 ⟨"b", 0, false, []⟩ "x").store 0 =
        count_requests "p" [] 0 + 1) :=
  ⟨by decide, by decide, by decide, by decide,
   c10_no_bin_existence_check "p" 100 (fun _ => "a") [] 0 ⟨"b", 0, false, []⟩ "x"
     (by decide) (by decide) (by decide) (by decide)⟩

end RequestBin
